import Mathlib

/-!
Verification of the plotcap capture-rate pipeline (src/main.rs).

The Rust source is shallowly embedded.  Machine integers are modelled as ℕ
with explicit reduction modulo 2^32 / 2^64 at the operations where the
source performs fixed-width (release-mode, i.e. wrapping) arithmetic, and
chrono's NaiveDateTime is modelled by its seconds / subsecond-nanoseconds
content: chrono's from_timestamp_opt either builds exactly this pair or
panics through the adjacent unwrap, and the panic is a library condition,
not logic of this repository.  Durations (chrono::Duration) are modelled as
exact integer nanosecond counts; num_microseconds() is floor division by
1000, which is what chrono's (secs, 0 ≤ nanos < 1e9) normal form computes.
-/

namespace Plotcap

def U32 : ℕ := 4294967296

def U64 : ℕ := 18446744073709551616

def I63 : ℕ := 9223372036854775808

def POWER_BITS : ℕ := 0x7f

def EXPONENT_FLAG_BIT : ℕ := 0x80

def NANOS_PER_SECOND : ℕ := 1000000000

def NANOS_PER_MICRO : ℕ := 1000

/-- chrono NaiveDateTime, modelled by its (seconds since the Unix epoch,
nanoseconds within the second) content. -/
structure NaiveDateTime where
  secs : ℤ
  nsecs : ℕ
deriving DecidableEq

/-- The `as i64` cast of a u64 value. -/
def i64_of_u64 (n : ℕ) : ℤ :=
  if n < I63 then (n : ℤ) else (n : ℤ) - (U64 : ℤ)

/-- make_pcapng_timestamp (src/main.rs lines 25-48): builds the converter from
the high:low pcapng timestamp parts to a NaiveDateTime, given if_tsresol.
`exponent as u64 - 1` is u64 wrapping subtraction (release mode), hence the
`(exponent + U64 - 1) % U64`; the two `pow` calls and the product with
NANOS_PER_SECOND likewise wrap modulo 2^64. -/
def make_pcapng_timestamp (if_tsresol : ℕ) (ts_high ts_low : ℕ) : NaiveDateTime :=
  let exponent : ℕ := if_tsresol % 256 &&& POWER_BITS
  let flag : Bool := if_tsresol % 256 &&& EXPONENT_FLAG_BIT == EXPONENT_FLAG_BIT
  let divisor : ℕ := if flag then 2 ^ exponent % U64 else 10 ^ exponent % U64
  let ts : ℕ := (ts_high % U32) <<< 32 ||| ts_low % U32
  let sn : ℕ × ℕ :=
    if flag then
      (ts >>> exponent, (ts &&& ((exponent + U64 - 1) % U64)) / divisor)
    else
      (ts / divisor, ts % divisor * NANOS_PER_SECOND % U64 / divisor)
  ⟨i64_of_u64 sn.1, sn.2 % U32⟩

/-- Legacy pcap per-packet timestamp decoding (src/main.rs lines 119-127):
NaiveDateTime::from_timestamp_opt(ts_sec as i64, ts_usec * NANOS_PER_MICRO),
where the nanosecond product is u32 (wrapping) arithmetic. -/
def legacy_timestamp (ts_sec ts_usec : ℕ) : NaiveDateTime :=
  ⟨((ts_sec % U32 : ℕ) : ℤ), ts_usec % U32 * NANOS_PER_MICRO % U32⟩

/-- Unfolding of the resolver in the base-2 (flag set) case. -/
lemma make_pcapng_timestamp_base2 (r th tl : ℕ)
    (hflag : r % 256 &&& EXPONENT_FLAG_BIT = EXPONENT_FLAG_BIT) :
    make_pcapng_timestamp r th tl =
      ⟨i64_of_u64 (((th % U32) <<< 32 ||| tl % U32) >>> (r % 256 &&& POWER_BITS)),
       (((th % U32) <<< 32 ||| tl % U32) &&& (((r % 256 &&& POWER_BITS) + U64 - 1) % U64)) /
         (2 ^ (r % 256 &&& POWER_BITS) % U64) % U32⟩ := by
  have hc : (r % 256 &&& EXPONENT_FLAG_BIT == EXPONENT_FLAG_BIT) = true := by
    simp [hflag]
  simp [make_pcapng_timestamp, hc]

/-- Unfolding of the resolver in the base-10 (flag clear) case. -/
lemma make_pcapng_timestamp_base10 (r th tl : ℕ)
    (hflag : r % 256 &&& EXPONENT_FLAG_BIT ≠ EXPONENT_FLAG_BIT) :
    make_pcapng_timestamp r th tl =
      ⟨i64_of_u64 (((th % U32) <<< 32 ||| tl % U32) / (10 ^ (r % 256 &&& POWER_BITS) % U64)),
       ((th % U32) <<< 32 ||| tl % U32) % (10 ^ (r % 256 &&& POWER_BITS) % U64) *
           NANOS_PER_SECOND % U64 / (10 ^ (r % 256 &&& POWER_BITS) % U64) % U32⟩ := by
  have hc : (r % 256 &&& EXPONENT_FLAG_BIT == EXPONENT_FLAG_BIT) = false := by
    simp [hflag]
  simp [make_pcapng_timestamp, hc]

/-- Modelled from the spec: in the base-2 branch the divisor is 2^exponent,
whole seconds are the ticks arithmetically shifted right by the exponent, and
the remaining `ticks mod 2^exponent` low-order ticks are scaled to
nanoseconds against the divisor. -/
def base2_resolution_spec (exponent ticks : ℕ) : ℤ × ℕ :=
  (((ticks >>> exponent : ℕ) : ℤ), ticks % 2 ^ exponent * NANOS_PER_SECOND / 2 ^ exponent)

/-- C1: for a base-2 descriptor with exponent 10 and raw ticks 1536 the spec
requires 1 second + 500,000,000 ns, but the code masks the ticks with
`exponent - 1` (not `divisor - 1`) and never scales the remainder to
nanoseconds, so it returns 1 second + 0 ns.  The first conjunct evaluates
the embedded code at the failing input, the second evaluates the spec's
base-2 rule at the same input. -/
theorem C1_base2_exponent10_bug :
    make_pcapng_timestamp 0x8A 0 1536 = ⟨1, 0⟩ ∧
    base2_resolution_spec 10 1536 = (1, 500000000) := by
  constructor <;> decide

/-- C6: a pcapng resolver built from descriptor 6 (base-10 flag, exponent 6)
agrees with legacy microsecond decoding of (ticks div 10^6, ticks mod 10^6),
whenever the seconds part fits the legacy 32-bit seconds field. -/
theorem C6_base10_exp6_matches_legacy (ticks : ℕ) (h : ticks < U32 * 1000000) :
    make_pcapng_timestamp 6 (ticks / U32) (ticks % U32)
      = legacy_timestamp (ticks / 1000000) (ticks % 1000000) := by
  have hU32 : U32 = 2 ^ 32 := by norm_num [U32]
  have hdivlt : ticks / U32 < U32 := by
    have hUU : ticks < U32 * U32 := lt_of_lt_of_le h (by norm_num [U32])
    exact Nat.div_lt_of_lt_mul hUU
  have hmodlt : ticks % U32 < 2 ^ 32 := by
    rw [← hU32]; exact Nat.mod_lt _ (by norm_num [U32])
  have hassemble : (ticks / U32 % U32) <<< 32 ||| ticks % U32 % U32 = ticks := by
    rw [Nat.mod_eq_of_lt hdivlt, Nat.mod_mod_of_dvd _ dvd_rfl, Nat.shiftLeft_eq,
        Nat.mul_comm, ← Nat.mul_add_lt_is_or hmodlt, ← hU32, Nat.div_add_mod]
  have hsec : ticks / 1000000 < U32 := by
    apply Nat.div_lt_of_lt_mul
    rw [Nat.mul_comm]
    exact h
  have husec : ticks % 1000000 < 1000000 := Nat.mod_lt _ (by norm_num)
  rw [make_pcapng_timestamp_base10 _ _ _ (by decide), hassemble]
  have hexp : (6 : ℕ) % 256 &&& POWER_BITS = 6 := by decide
  have hdvsr : (10 : ℕ) ^ 6 % U64 = 1000000 := by decide
  rw [hexp, hdvsr, legacy_timestamp]
  have hns : ticks % 1000000 * NANOS_PER_SECOND % U64 / 1000000
      = ticks % 1000000 * NANOS_PER_MICRO := by
    have hsmall : ticks % 1000000 * NANOS_PER_SECOND < U64 := by
      calc ticks % 1000000 * NANOS_PER_SECOND
          ≤ 999999 * NANOS_PER_SECOND := by
            exact Nat.mul_le_mul_right _ (by omega)
        _ < U64 := by norm_num [NANOS_PER_SECOND, U64]
    rw [Nat.mod_eq_of_lt hsmall]
    have hsplit : ticks % 1000000 * NANOS_PER_SECOND
        = ticks % 1000000 * NANOS_PER_MICRO * 1000000 := by
      simp only [NANOS_PER_SECOND, NANOS_PER_MICRO]; ring
    rw [hsplit, Nat.mul_div_cancel _ (by norm_num)]
  rw [hns, Nat.mod_eq_of_lt (lt_of_lt_of_le husec (by norm_num [U32]))]
  have hi64 : i64_of_u64 (ticks / 1000000) = ((ticks / 1000000 : ℕ) : ℤ) := by
    rw [i64_of_u64, if_pos (lt_of_lt_of_le hsec (by norm_num [U32, I63]))]
  rw [hi64, Nat.mod_eq_of_lt hsec]

/-- C7 witnesses that the nanosecond invariant can be broken: a legacy packet
header with a (malformed, but type-correct) microsecond field of 1,500,000
decodes to nanoseconds = 1,500,000,000 ≥ 1e9; chrono accepts any nanosecond
value below 2e9 (leap-second representation), so this timestamp is really
produced by the program. -/
theorem C7_counterexample :
    (legacy_timestamp 0 1500000).nsecs = 1500000000 ∧
    ¬ (legacy_timestamp 0 1500000).nsecs < 1000000000 := by
  constructor <;> decide

/-- C7 (amended): every timestamp produced by legacy decoding of an in-range
(< 10^6) microsecond field, or by the pcapng resolver under a base-2
descriptor with exponent between 1 and 63, or under a base-10 descriptor
with exponent at most 19, has nanoseconds strictly below 1,000,000,000.
(The excluded descriptor shapes either panic in the source - zero divisor
gives divide-by-zero - or, for base-2 exponent 0, reproduce the raw tick
count as nanoseconds; the legacy bound is forced by the counterexample.) -/
theorem C7_amended :
    (∀ ts_sec ts_usec : ℕ, ts_usec < 1000000 →
       (legacy_timestamp ts_sec ts_usec).nsecs < 1000000000) ∧
    (∀ r h l : ℕ, r % 256 &&& EXPONENT_FLAG_BIT = EXPONENT_FLAG_BIT →
       1 ≤ r % 256 &&& POWER_BITS → r % 256 &&& POWER_BITS ≤ 63 →
       (make_pcapng_timestamp r h l).nsecs < 1000000000) ∧
    (∀ r h l : ℕ, r % 256 &&& EXPONENT_FLAG_BIT = 0 →
       r % 256 &&& POWER_BITS ≤ 19 →
       (make_pcapng_timestamp r h l).nsecs < 1000000000) := by
  refine ⟨fun ts_sec ts_usec hu => ?_, fun r h l hflag h1 h63 => ?_, fun r h l hflag h19 => ?_⟩
  · simp only [legacy_timestamp]
    have hu32 : ts_usec % U32 = ts_usec := Nat.mod_eq_of_lt (by norm_num [U32]; omega)
    rw [hu32]
    have hlt : ts_usec * NANOS_PER_MICRO < 1000000000 := by
      simp only [NANOS_PER_MICRO]; omega
    rw [Nat.mod_eq_of_lt (lt_of_lt_of_le hlt (by norm_num [U32]))]
    exact hlt
  · rw [make_pcapng_timestamp_base2 _ _ _ hflag]
    set e := r % 256 &&& POWER_BITS with he
    have hmask : (e + U64 - 1) % U64 = e - 1 := by
      simp only [U64]; omega
    have hpow : 2 ^ e % U64 = 2 ^ e := by
      apply Nat.mod_eq_of_lt
      calc 2 ^ e ≤ 2 ^ 63 := Nat.pow_le_pow_right (by norm_num) h63
        _ < U64 := by norm_num [U64]
    have hme : ((h % U32) <<< 32 ||| l % U32) &&& (e - 1) < 2 ^ e := by
      have hb : ((h % U32) <<< 32 ||| l % U32) &&& (e - 1) ≤ e - 1 := Nat.and_le_right
      have hb2 : e - 1 < 2 ^ e := lt_of_lt_of_le (by omega) (Nat.le_of_lt (Nat.lt_two_pow e))
      omega
    rw [hmask, hpow, Nat.div_eq_of_lt hme]
    norm_num [U32]
  · rw [make_pcapng_timestamp_base10 _ _ _ (by rw [hflag]; decide)]
    set e := r % 256 &&& POWER_BITS with he
    have hpow : 10 ^ e % U64 = 10 ^ e := by
      apply Nat.mod_eq_of_lt
      calc 10 ^ e ≤ 10 ^ 19 := Nat.pow_le_pow_right (by norm_num) h19
        _ < U64 := by norm_num [U64]
    rw [hpow]
    set t : ℕ := (h % U32) <<< 32 ||| l % U32 with ht
    have hepos : 0 < 10 ^ e := Nat.pos_pow_of_pos e (by norm_num)
    have hX : t % 10 ^ e * NANOS_PER_SECOND % U64 < 10 ^ e * 1000000000 := by
      have h1' : t % 10 ^ e * NANOS_PER_SECOND % U64 ≤ t % 10 ^ e * NANOS_PER_SECOND :=
        Nat.mod_le _ _
      have h2' : t % 10 ^ e * NANOS_PER_SECOND < 10 ^ e * NANOS_PER_SECOND :=
        (Nat.mul_lt_mul_right (by norm_num [NANOS_PER_SECOND])).mpr (Nat.mod_lt _ hepos)
      simpa [NANOS_PER_SECOND] using lt_of_le_of_lt h1' h2'
    have hdiv : t % 10 ^ e * NANOS_PER_SECOND % U64 / 10 ^ e < 1000000000 :=
      Nat.div_lt_of_lt_mul hX
    exact lt_of_le_of_lt (Nat.mod_le _ _) hdiv

/-! ## The rate aggregator (src/main.rs, main loop, lines 88-211) -/

/-- Total nanoseconds of a timestamp; chrono's subtraction of two
NaiveDateTime values is the difference of these counts. -/
def toNanos (t : NaiveDateTime) : ℤ := t.secs * 1000000000 + t.nsecs

/-- chrono::Duration between two timestamps, in exact nanoseconds. -/
def dur (a b : NaiveDateTime) : ℤ := toNanos a - toNanos b

/-- Duration::num_microseconds: whole microseconds, the floor division of the
nanosecond count (chrono keeps secs plus a nonnegative sub-second nano part,
so secs*1e6 + nanos/1000 is exactly this floor). -/
def num_microseconds (d : ℤ) : ℤ := Int.ediv d 1000

def epoch_ts : NaiveDateTime := ⟨0, 0⟩

/-- A decoded packet record: wire length, captured length (u32 fields) and
the resolved timestamp. -/
structure Packet where
  origlen : ℕ
  caplen : ℕ
  ts : NaiveDateTime
deriving DecidableEq

/-- The mutable aggregation state of the main loop (lines 88-94). -/
structure AggState where
  this_packet_ts : NaiveDateTime
  first_packet_ts : NaiveDateTime
  previous_packet_ts : NaiveDateTime
  packet_count : ℕ
  byte_count_wire : ℕ
  byte_count_capture : ℕ
deriving DecidableEq

def initState : AggState := ⟨epoch_ts, epoch_ts, epoch_ts, 0, 0, 0⟩

/-- One emitted gnuplot data row (lines 183-200).  The f64 values actually
written are monotone images of these exact integer numerators:
elapsed_since_first_packet_secs is elapsed_since_first_us / 1e6, and the
three rates divide the three counters by elapsed_since_last_ns / 1e9. -/
structure RateSample where
  elapsed_since_first_us : ℤ
  elapsed_since_last_ns : ℤ
  packet_count : ℕ
  byte_count_wire : ℕ
  byte_count_capture : ℕ
deriving DecidableEq

/-- The flush stage of the loop body (lines 181-206): it runs after a packet
has been accumulated (with eof = false) and once more after EOF was seen
(with eof = true). -/
def flush_check (P : ℤ) (eof : Bool) (st : AggState) : AggState × Option RateSample :=
  let elapsed := dur st.this_packet_ts st.previous_packet_ts
  if P ≤ elapsed ∨ (eof = true ∧ 1 < st.packet_count) then
    ({ st with previous_packet_ts := st.this_packet_ts,
               packet_count := 0, byte_count_wire := 0, byte_count_capture := 0 },
     some { elapsed_since_first_us := num_microseconds (dur st.this_packet_ts st.first_packet_ts),
            elapsed_since_last_ns := elapsed,
            packet_count := st.packet_count,
            byte_count_wire := st.byte_count_wire,
            byte_count_capture := st.byte_count_capture })
  else (st, none)

/-- The packet-accumulation stage (lines 158-169): record the timestamp,
first-packet detection against the epoch sentinel, and the u32 (wrapping)
counter updates. -/
def accumulate (st : AggState) (p : Packet) : AggState :=
  let st1 := { st with this_packet_ts := p.ts }
  let st2 := if st1.previous_packet_ts = epoch_ts then
      { st1 with first_packet_ts := st1.this_packet_ts,
                 previous_packet_ts := st1.this_packet_ts }
    else st1
  { st2 with byte_count_capture := (st2.byte_count_capture + p.caplen % U32) % U32,
             byte_count_wire := (st2.byte_count_wire + p.origlen % U32) % U32,
             packet_count := (st2.packet_count + 1) % U32 }

/-- One loop iteration that yielded a packet: accumulate, then the flush
stage with eof = false. -/
def record_step (P : ℤ) (st : AggState) (p : Packet) : AggState × Option RateSample :=
  flush_check P false (accumulate st p)

/-- The packet-processing loop over a list of decoded records. -/
def run_aux (P : ℤ) (st : AggState) : List Packet → AggState × List RateSample
  | [] => (st, [])
  | p :: rest =>
    let r := record_step P st p
    let rr := run_aux P r.1 rest
    (rr.1, r.2.toList ++ rr.2)

/-- The full per-packet pipeline: process every record, then the EOF
iteration (flush stage with eof = true). -/
def run (P : ℤ) (ps : List Packet) : List RateSample :=
  (run_aux P initState ps).2 ++ ((flush_check P true (run_aux P initState ps).1).2).toList

/-- The aggregation state left after the whole run, EOF iteration included. -/
def final_state (P : ℤ) (ps : List Packet) : AggState :=
  (flush_check P true (run_aux P initState ps).1).1

lemma run_aux_nil (P : ℤ) (st : AggState) : run_aux P st [] = (st, []) := rfl

lemma run_aux_cons (P : ℤ) (st : AggState) (p : Packet) (rest : List Packet) :
    run_aux P st (p :: rest) =
      ((run_aux P (record_step P st p).1 rest).1,
       (record_step P st p).2.toList ++ (run_aux P (record_step P st p).1 rest).2) := rfl

lemma run_aux_append (P : ℤ) (st : AggState) (l1 l2 : List Packet) :
    run_aux P st (l1 ++ l2) =
      ((run_aux P (run_aux P st l1).1 l2).1,
       (run_aux P st l1).2 ++ (run_aux P (run_aux P st l1).1 l2).2) := by
  induction l1 generalizing st with
  | nil => simp [run_aux_nil]
  | cons p ps ih =>
    rw [List.cons_append, run_aux_cons, run_aux_cons, ih]
    simp [List.append_assoc]

lemma accumulate_eq_pos (st : AggState) (p : Packet) (hc : st.previous_packet_ts = epoch_ts) :
    accumulate st p =
      ⟨p.ts, p.ts, p.ts, (st.packet_count + 1) % U32,
       (st.byte_count_wire + p.origlen % U32) % U32,
       (st.byte_count_capture + p.caplen % U32) % U32⟩ := by
  simp [accumulate, hc]

lemma accumulate_eq_neg (st : AggState) (p : Packet) (hc : ¬ st.previous_packet_ts = epoch_ts) :
    accumulate st p =
      ⟨p.ts, st.first_packet_ts, st.previous_packet_ts, (st.packet_count + 1) % U32,
       (st.byte_count_wire + p.origlen % U32) % U32,
       (st.byte_count_capture + p.caplen % U32) % U32⟩ := by
  simp [accumulate, hc]

lemma accumulate_this (st : AggState) (p : Packet) :
    (accumulate st p).this_packet_ts = p.ts := by
  by_cases hc : st.previous_packet_ts = epoch_ts
  · rw [accumulate_eq_pos st p hc]
  · rw [accumulate_eq_neg st p hc]

lemma flush_check_pos (P : ℤ) (eof : Bool) (st : AggState)
    (hc : P ≤ dur st.this_packet_ts st.previous_packet_ts ∨
      (eof = true ∧ 1 < st.packet_count)) :
    flush_check P eof st =
      (⟨st.this_packet_ts, st.first_packet_ts, st.this_packet_ts, 0, 0, 0⟩,
       some ⟨num_microseconds (dur st.this_packet_ts st.first_packet_ts),
             dur st.this_packet_ts st.previous_packet_ts,
             st.packet_count, st.byte_count_wire, st.byte_count_capture⟩) := by
  simp [flush_check, hc]

lemma flush_check_neg (P : ℤ) (eof : Bool) (st : AggState)
    (hc : ¬ (P ≤ dur st.this_packet_ts st.previous_packet_ts ∨
      (eof = true ∧ 1 < st.packet_count))) :
    flush_check P eof st = (st, none) := by
  simp only [flush_check]
  rw [if_neg hc]

lemma flush_check_first (P : ℤ) (eof : Bool) (st : AggState) :
    (flush_check P eof st).1.first_packet_ts = st.first_packet_ts := by
  by_cases hc : P ≤ dur st.this_packet_ts st.previous_packet_ts ∨
      (eof = true ∧ 1 < st.packet_count)
  · rw [flush_check_pos P eof st hc]
  · rw [flush_check_neg P eof st hc]

/-- C2: once a record's lengths have been added to the counters, a sample is
emitted iff the elapsed time since the previous flush timestamp reached the
configured period P, or the eof flag is set with more than one packet
counted since the last flush; on emission the three counters reset to 0 and
the flush timestamp becomes this packet's timestamp.  (In the source the
flush stage runs with eof = false on every packet iteration and with
eof = true on the final EOF iteration; the parameter covers both.) -/
theorem C2_flush_condition_and_reset (P : ℤ) (eof : Bool) (st : AggState) (p : Packet) :
    (((flush_check P eof (accumulate st p)).2).isSome = true ↔
      (P ≤ dur p.ts (accumulate st p).previous_packet_ts ∨
        (eof = true ∧ 1 < (accumulate st p).packet_count))) ∧
    (∀ s, (flush_check P eof (accumulate st p)).2 = some s →
      (flush_check P eof (accumulate st p)).1.packet_count = 0 ∧
      (flush_check P eof (accumulate st p)).1.byte_count_wire = 0 ∧
      (flush_check P eof (accumulate st p)).1.byte_count_capture = 0 ∧
      (flush_check P eof (accumulate st p)).1.previous_packet_ts = p.ts) := by
  have hthis := accumulate_this st p
  by_cases hc : P ≤ dur (accumulate st p).this_packet_ts (accumulate st p).previous_packet_ts
      ∨ (eof = true ∧ 1 < (accumulate st p).packet_count)
  · rw [flush_check_pos P eof _ hc]
    rw [hthis] at hc
    exact ⟨by simpa using hc, fun s _ => ⟨rfl, rfl, rfl, hthis⟩⟩
  · rw [flush_check_neg P eof _ hc]
    rw [hthis] at hc
    exact ⟨by simpa using hc, fun s hs => by simp at hs⟩

/-- Witness for C2 at a concrete emitting input: state one second after its
previous flush, period 1s exceeded by a packet two seconds later. -/
theorem C2_flush_condition_and_reset_witness :
    (flush_check 1000000000 false
        (accumulate ⟨⟨1,0⟩,⟨1,0⟩,⟨1,0⟩,1,10,10⟩ ⟨20,20,⟨3,0⟩⟩)).1.packet_count = 0 ∧
    (flush_check 1000000000 false
        (accumulate ⟨⟨1,0⟩,⟨1,0⟩,⟨1,0⟩,1,10,10⟩ ⟨20,20,⟨3,0⟩⟩)).1.previous_packet_ts = ⟨3,0⟩ := by
  have h := C2_flush_condition_and_reset 1000000000 false
    ⟨⟨1,0⟩,⟨1,0⟩,⟨1,0⟩,1,10,10⟩ ⟨20,20,⟨3,0⟩⟩
  have hs : (flush_check 1000000000 false
      (accumulate ⟨⟨1,0⟩,⟨1,0⟩,⟨1,0⟩,1,10,10⟩ ⟨20,20,⟨3,0⟩⟩)).2
      = some ⟨2000000, 2000000000, 2, 30, 30⟩ := by decide
  have hr := h.2 _ hs
  exact ⟨hr.1, hr.2.2.2⟩

/-- C3: a stream with exactly one packet record produces zero RateSamples,
for any positive reporting period: the EOF guard needs more than one counted
packet and the elapsed duration is zero. -/
theorem C3_single_packet_no_samples (P : ℤ) (hP : 0 < P) (p : Packet) :
    run P [p] = [] := by
  have hacc := accumulate_eq_pos initState p rfl
  have hdur : dur p.ts p.ts = 0 := sub_self _
  have hcf : ¬ (P ≤ dur p.ts p.ts ∨ ((false = true) ∧ 1 < (0 + 1) % U32)) := by
    rw [hdur]
    rintro (hle | ⟨hfalse, -⟩)
    · omega
    · simp at hfalse
  have h1 : flush_check P false (accumulate initState p) = (accumulate initState p, none) := by
    apply flush_check_neg
    rw [hacc]
    exact hcf
  have hcf2 : ¬ (P ≤ dur p.ts p.ts ∨ ((true = true) ∧ 1 < (0 + 1) % U32)) := by
    rw [hdur]
    rintro (hle | ⟨-, hcount⟩)
    · omega
    · have hone : (0 + 1) % U32 = 1 := by norm_num [U32]
      omega
  have h2 : flush_check P true (accumulate initState p) = (accumulate initState p, none) := by
    apply flush_check_neg
    rw [hacc]
    exact hcf2
  have hr : run_aux P initState [p] = (accumulate initState p, []) := by
    rw [run_aux_cons, run_aux_nil]
    rw [show record_step P initState p = (accumulate initState p, none) from h1]
    rfl
  unfold run
  rw [hr]
  simp [h2]

/-- Witness for C3 at a concrete one-packet stream with period 1 ns. -/
theorem C3_single_packet_no_samples_witness :
    (0 : ℤ) < 1 ∧ run 1 [⟨100, 80, ⟨5, 0⟩⟩] = [] :=
  ⟨by norm_num, C3_single_packet_no_samples 1 (by norm_num) ⟨100, 80, ⟨5, 0⟩⟩⟩

/-- C10: the per-bucket packet/wire/captured counters are u32 accumulators:
each record's lengths are added modulo 2^32, so a bucket that sums past
2^32 - 1 wraps (release-mode Rust semantics) rather than saturating. -/
theorem C10_counters_wrap_mod_u32 (st : AggState) (p : Packet)
    (ho : p.origlen < U32) (hc : p.caplen < U32) :
    (accumulate st p).byte_count_wire = (st.byte_count_wire + p.origlen) % U32 ∧
    (accumulate st p).byte_count_capture = (st.byte_count_capture + p.caplen) % U32 ∧
    (accumulate st p).packet_count = (st.packet_count + 1) % U32 := by
  by_cases h : st.previous_packet_ts = epoch_ts
  · rw [accumulate_eq_pos st p h]
    exact ⟨by rw [Nat.mod_eq_of_lt ho], by rw [Nat.mod_eq_of_lt hc], rfl⟩
  · rw [accumulate_eq_neg st p h]
    exact ⟨by rw [Nat.mod_eq_of_lt ho], by rw [Nat.mod_eq_of_lt hc], rfl⟩

/-- Witness for C10 that also exhibits the wrap-around: a bucket holding
2^32 - 1 wire bytes receives 2 more and ends at 1, not at a saturated or
errored value. -/
theorem C10_counters_wrap_mod_u32_witness :
    (accumulate ⟨epoch_ts, epoch_ts, ⟨1, 0⟩, 5, 4294967295, 4294967290⟩
        ⟨2, 10, ⟨2, 0⟩⟩).byte_count_wire = 1 ∧
    (accumulate ⟨epoch_ts, epoch_ts, ⟨1, 0⟩, 5, 4294967295, 4294967290⟩
        ⟨2, 10, ⟨2, 0⟩⟩).byte_count_capture = 4 ∧
    (accumulate ⟨epoch_ts, epoch_ts, ⟨1, 0⟩, 5, 4294967295, 4294967290⟩
        ⟨2, 10, ⟨2, 0⟩⟩).packet_count = 6 := by
  have h := C10_counters_wrap_mod_u32 ⟨epoch_ts, epoch_ts, ⟨1, 0⟩, 5, 4294967295, 4294967290⟩
    ⟨2, 10, ⟨2, 0⟩⟩ (by norm_num [U32]) (by norm_num [U32])
  refine ⟨?_, ?_, ?_⟩
  · rw [h.1]; norm_num [U32]
  · rw [h.2.1]; norm_num [U32]
  · rw [h.2.2]; norm_num [U32]

/-! ## The block-level reader loop, for the simple-packet failure mode -/

/-- The block kinds distinguished by the match in the main loop
(lines 115-156). -/
inductive PcapBlock where
  | LegacyPacket (origlen caplen ts_sec ts_usec : ℕ)
  | EnhancedPacket (origlen caplen ts_high ts_low : ℕ)
  | SimplePacket
  | InterfaceDescription (if_tsresol : ℕ)
  | LegacyHeader
  | OtherBlock
deriving DecidableEq

def simple_packet_error : String :=
  "pcapng file contains simple packets, which are unsupported"

/-- The reader loop over the stream of parsed blocks (lines 115-211): packet
blocks feed the aggregator, an interface-description block rebuilds the
pcapng resolver, header and irrelevant blocks are consumed with no record,
a simple-packet block aborts the run (the panic at lines 134-138, modelled
as a fatal error value); after the last block the EOF iteration runs. -/
def process (P : ℤ) : List PcapBlock → ℕ → AggState → Except String (List RateSample)
  | [], _, st => .ok ((flush_check P true st).2.toList)
  | .SimplePacket :: _, _, _ => .error simple_packet_error
  | .InterfaceDescription r :: rest, _, st => process P rest r st
  | .LegacyHeader :: rest, t, st => process P rest t st
  | .OtherBlock :: rest, t, st => process P rest t st
  | .LegacyPacket ol cl s u :: rest, t, st =>
      (process P rest t (record_step P st ⟨ol, cl, legacy_timestamp s u⟩).1).map
        (fun outs => (record_step P st ⟨ol, cl, legacy_timestamp s u⟩).2.toList ++ outs)
  | .EnhancedPacket ol cl hi lo :: rest, t, st =>
      (process P rest t (record_step P st ⟨ol, cl, make_pcapng_timestamp t hi lo⟩).1).map
        (fun outs => (record_step P st ⟨ol, cl, make_pcapng_timestamp t hi lo⟩).2.toList ++ outs)

/-- The whole pipeline at block level: resolver starts as
make_pcapng_timestamp(6), state starts at the epoch sentinel. -/
def process_run (P : ℤ) (blocks : List PcapBlock) : Except String (List RateSample) :=
  process P blocks 6 initState

/-- C5: whatever precedes it, reaching a pcapng simple-packet block makes the
run terminate with the labeled fatal error; it is never skipped and never
yields a packet record (nothing after it is processed and no result list is
produced). -/
theorem C5_simple_packet_fatal (P : ℤ) (pre rest : List PcapBlock) (t : ℕ) (st : AggState)
    (hpre : PcapBlock.SimplePacket ∉ pre) :
    process P (pre ++ PcapBlock.SimplePacket :: rest) t st = .error simple_packet_error := by
  induction pre generalizing t st with
  | nil => rfl
  | cons b bs ih =>
    have hb : b ≠ PcapBlock.SimplePacket := fun hbe => hpre (hbe ▸ List.mem_cons_self _ _)
    have hbs : PcapBlock.SimplePacket ∉ bs := fun hm => hpre (List.mem_cons_of_mem _ hm)
    cases b with
    | SimplePacket => exact absurd rfl hb
    | LegacyPacket ol cl s u =>
      rw [List.cons_append]
      show (process P (bs ++ PcapBlock.SimplePacket :: rest) t _).map _ = _
      rw [ih _ _ hbs]
      rfl
    | EnhancedPacket ol cl hi lo =>
      rw [List.cons_append]
      show (process P (bs ++ PcapBlock.SimplePacket :: rest) t _).map _ = _
      rw [ih _ _ hbs]
      rfl
    | InterfaceDescription r =>
      rw [List.cons_append]
      exact ih _ _ hbs
    | LegacyHeader =>
      rw [List.cons_append]
      exact ih _ _ hbs
    | OtherBlock =>
      rw [List.cons_append]
      exact ih _ _ hbs

/-- Witness for C5: a legacy header followed by a simple-packet block. -/
theorem C5_simple_packet_fatal_witness :
    process 1000000000 [PcapBlock.LegacyHeader, PcapBlock.SimplePacket] 6 initState
      = .error simple_packet_error :=
  C5_simple_packet_fatal 1000000000 [PcapBlock.LegacyHeader] [] 6 initState (by decide)

/-- Witness for C6 at ticks = 1536. -/
theorem C6_base10_exp6_matches_legacy_witness :
    (1536 : ℕ) < U32 * 1000000 ∧
    make_pcapng_timestamp 6 (1536 / U32) (1536 % U32)
      = legacy_timestamp (1536 / 1000000) (1536 % 1000000) :=
  ⟨by norm_num [U32], C6_base10_exp6_matches_legacy 1536 (by norm_num [U32])⟩

/-- Witness for C7 (amended), one instance per clause. -/
theorem C7_amended_witness :
    (legacy_timestamp 7 999999).nsecs < 1000000000 ∧
    (make_pcapng_timestamp 0x89 0 12345).nsecs < 1000000000 ∧
    (make_pcapng_timestamp 0x09 0 12345).nsecs < 1000000000 :=
  ⟨C7_amended.1 7 999999 (by norm_num),
   C7_amended.2.1 0x89 0 12345 (by decide) (by decide) (by decide),
   C7_amended.2.2 0x09 0 12345 (by decide) (by decide)⟩

/-! ## C4: the two-sample boundary claim -/

/-- C4 counterexample: period 1 s; three packets at 1.0 s, 1.5 s and 2.5 s.
All packets except the final one lie within one period of the first, and the
final packet arrives after the period has elapsed — the claim's premise —
yet the run emits exactly ONE RateSample, not two: the final packet is
included in the mid-stream flush it triggers, so the EOF iteration sees zero
counted packets and emits nothing. -/
theorem C4_counterexample :
    dur (⟨1, 500000000⟩ : NaiveDateTime) ⟨1, 0⟩ < 1000000000 ∧
    1000000000 ≤ dur (⟨2, 500000000⟩ : NaiveDateTime) ⟨1, 0⟩ ∧
    (run 1000000000 [⟨100, 80, ⟨1, 0⟩⟩, ⟨100, 80, ⟨1, 500000000⟩⟩,
        ⟨100, 80, ⟨2, 500000000⟩⟩]).length = 1 ∧
    ¬ (run 1000000000 [⟨100, 80, ⟨1, 0⟩⟩, ⟨100, 80, ⟨1, 500000000⟩⟩,
        ⟨100, 80, ⟨2, 500000000⟩⟩]).length = 2 := by
  refine ⟨by decide, by decide, by decide, by decide⟩

/-- Processing a run of packets that all stay strictly within one period of
the (already initialised) flush timestamp F emits nothing and leaves the
first/previous timestamps untouched. -/
lemma run_aux_no_flush (P : ℤ) (F : NaiveDateTime) (hF : 0 < toNanos F) :
    ∀ (mid : List Packet) (st : AggState),
      st.first_packet_ts = F → st.previous_packet_ts = F →
      (∀ p ∈ mid, dur p.ts F < P) →
      (run_aux P st mid).2 = [] ∧
      (run_aux P st mid).1.first_packet_ts = F ∧
      (run_aux P st mid).1.previous_packet_ts = F := by
  intro mid
  induction mid with
  | nil => intro st h1 h2 _; exact ⟨rfl, h1, h2⟩
  | cons p ps ih =>
    intro st h1 h2 hlt
    have hne : st.previous_packet_ts ≠ epoch_ts := by
      rw [h2]
      intro he
      rw [he] at hF
      norm_num [toNanos, epoch_ts] at hF
    have hacc := accumulate_eq_neg st p hne
    have hcond : ¬ (P ≤ dur (accumulate st p).this_packet_ts
        (accumulate st p).previous_packet_ts ∨
        ((false = true) ∧ 1 < (accumulate st p).packet_count)) := by
      rw [hacc]
      rintro (hle | ⟨hf, -⟩)
      · have hle2 : P ≤ dur p.ts F := by rw [← h2]; exact hle
        exact absurd hle2 (not_le.mpr (hlt p (List.mem_cons_self p ps)))
      · simp at hf
    have hstep : record_step P st p = (accumulate st p, none) :=
      flush_check_neg P false _ hcond
    rw [run_aux_cons, hstep]
    obtain ⟨ha, hb, hc⟩ := ih (accumulate st p) (by rw [hacc]; exact h1)
      (by rw [hacc]; exact h2) (fun r hr => hlt r (List.mem_cons_of_mem _ hr))
    exact ⟨by simpa using ha, hb, hc⟩

/-- C4 (amended): a stream of at least two packets whose first packet is
after the epoch, whose non-final packets all lie strictly within one
reporting period of the first packet, and whose final packet arrives at or
after one period past the first packet, emits exactly ONE RateSample: the
flush triggered by (and including) the final packet; the EOF iteration then
emits nothing, because the counters were just reset. -/
theorem C4_amended_single_sample (P : ℤ) (hP : 0 < P) (p0 q : Packet) (mid : List Packet)
    (h0 : 0 < toNanos p0.ts)
    (hmid : ∀ p ∈ mid, dur p.ts p0.ts < P)
    (hq : P ≤ dur q.ts p0.ts) :
    (run P (p0 :: mid ++ [q])).length = 1 := by
  -- first packet: initialisation, no flush
  have hacc0 := accumulate_eq_pos initState p0 rfl
  have hdur0 : dur p0.ts p0.ts = 0 := sub_self _
  have hcond0 : ¬ (P ≤ dur p0.ts p0.ts ∨ ((false = true) ∧ 1 < (0 + 1) % U32)) := by
    rw [hdur0]
    rintro (hle | ⟨hf, -⟩)
    · omega
    · simp at hf
  have hstep0 : record_step P initState p0 = (accumulate initState p0, none) := by
    apply flush_check_neg
    rw [hacc0]
    exact hcond0
  -- the middle packets cause no flush
  obtain ⟨houts, hF1, hP1⟩ := run_aux_no_flush P p0.ts h0 mid (accumulate initState p0)
    (by rw [hacc0]) (by rw [hacc0]) hmid
  -- the final packet q triggers the single flush
  have hneB : (run_aux P (accumulate initState p0) mid).1.previous_packet_ts ≠ epoch_ts := by
    rw [hP1]
    intro he
    rw [he] at h0
    norm_num [toNanos, epoch_ts] at h0
  have haccq := accumulate_eq_neg (run_aux P (accumulate initState p0) mid).1 q hneB
  have hstepq : record_step P (run_aux P (accumulate initState p0) mid).1 q
      = ((⟨q.ts, (run_aux P (accumulate initState p0) mid).1.first_packet_ts, q.ts,
           0, 0, 0⟩ : AggState),
         some ⟨num_microseconds
                 (dur q.ts (run_aux P (accumulate initState p0) mid).1.first_packet_ts),
               dur q.ts (run_aux P (accumulate initState p0) mid).1.previous_packet_ts,
               ((run_aux P (accumulate initState p0) mid).1.packet_count + 1) % U32,
               ((run_aux P (accumulate initState p0) mid).1.byte_count_wire
                 + q.origlen % U32) % U32,
               ((run_aux P (accumulate initState p0) mid).1.byte_count_capture
                 + q.caplen % U32) % U32⟩) := by
    show flush_check P false (accumulate (run_aux P (accumulate initState p0) mid).1 q) = _
    rw [haccq]
    refine flush_check_pos P false _ (Or.inl ?_)
    show P ≤ dur q.ts (run_aux P (accumulate initState p0) mid).1.previous_packet_ts
    rw [hP1]
    exact hq
  -- EOF iteration: nothing left to flush
  have hdq : dur q.ts q.ts = 0 := sub_self _
  have hcondE : ¬ (P ≤ dur q.ts q.ts ∨ ((true = true) ∧ 1 < 0)) := by
    rw [hdq]
    rintro (hle | ⟨-, hcount⟩)
    · omega
    · omega
  have heof : flush_check P true
      ((⟨q.ts, (run_aux P (accumulate initState p0) mid).1.first_packet_ts, q.ts,
         0, 0, 0⟩ : AggState))
      = ((⟨q.ts, (run_aux P (accumulate initState p0) mid).1.first_packet_ts, q.ts,
          0, 0, 0⟩ : AggState), none) :=
    flush_check_neg P true _ hcondE
  -- assemble
  have e1 : run_aux P initState (p0 :: (mid ++ [q]))
      = run_aux P (accumulate initState p0) (mid ++ [q]) := by
    rw [run_aux_cons, hstep0]
    rfl
  have e2 : run_aux P (accumulate initState p0) (mid ++ [q])
      = ((record_step P (run_aux P (accumulate initState p0) mid).1 q).1,
         (run_aux P (accumulate initState p0) mid).2 ++
           (record_step P (run_aux P (accumulate initState p0) mid).1 q).2.toList) := by
    rw [run_aux_append]
    rw [show run_aux P (run_aux P (accumulate initState p0) mid).1 [q]
        = ((run_aux P (record_step P (run_aux P (accumulate initState p0) mid).1 q).1 []).1,
           (record_step P (run_aux P (accumulate initState p0) mid).1 q).2.toList ++
           (run_aux P (record_step P (run_aux P (accumulate initState p0) mid).1 q).1 []).2)
      from run_aux_cons _ _ _ _]
    rw [run_aux_nil]
    simp
  unfold run
  rw [List.cons_append, e1, e2, houts, hstepq, heof]
  simp

/-- Witness for C4 (amended) at the counterexample's concrete stream. -/
theorem C4_amended_single_sample_witness :
    (run 1000000000 [⟨100, 80, ⟨1, 0⟩⟩, ⟨100, 80, ⟨1, 500000000⟩⟩,
        ⟨100, 80, ⟨2, 500000000⟩⟩]).length = 1 :=
  C4_amended_single_sample 1000000000 (by norm_num) ⟨100, 80, ⟨1, 0⟩⟩
    ⟨100, 80, ⟨2, 500000000⟩⟩ [⟨100, 80, ⟨1, 500000000⟩⟩]
    (by norm_num [toNanos]) (by decide) (by decide)

/-! ## C8/C9: ordering of emitted samples and the epoch-sentinel quirk -/

/-- Timestamps the decoder can actually hand to the aggregator: nonnegative
seconds (chrono rejects the huge pre-epoch values an out-of-range u64→i64
cast would produce) and a normalised nanosecond field. -/
def ValidTs (t : NaiveDateTime) : Prop := 0 ≤ t.secs ∧ t.nsecs < 1000000000

lemma toNanos_nonneg {t : NaiveDateTime} (h : ValidTs t) : 0 ≤ toNanos t := by
  obtain ⟨h1, -⟩ := h
  have h2 : (0 : ℤ) ≤ t.nsecs := Int.natCast_nonneg _
  have h3 : (0 : ℤ) ≤ t.secs * 1000000000 := by positivity
  unfold toNanos
  omega

lemma toNanos_epoch : toNanos epoch_ts = 0 := by norm_num [toNanos, epoch_ts]

lemma eq_epoch_of_toNanos {t : NaiveDateTime} (h : ValidTs t) (h0 : toNanos t = 0) :
    t = epoch_ts := by
  obtain ⟨h1, h2⟩ := h
  cases t with
  | mk s n =>
    simp only [toNanos] at h0
    simp only at h1 h2
    have hs : s = 0 ∧ n = 0 := by omega
    simp [epoch_ts, hs.1, hs.2]

lemma ne_epoch_of_pos {t : NaiveDateTime} (h : 0 < toNanos t) : t ≠ epoch_ts := by
  intro he
  rw [he, toNanos_epoch] at h
  exact absurd h (lt_irrefl 0)

lemma num_microseconds_mono {a b : ℤ} (h : a ≤ b) :
    num_microseconds a ≤ num_microseconds b :=
  Int.ediv_le_ediv (by norm_num) h

/-- The sample emitted by any flush carries the elapsed-since-first-packet
microsecond count of the state it was flushed from. -/
lemma flush_check_sample_us (P : ℤ) (eof : Bool) (st : AggState) (s : RateSample)
    (hs : (flush_check P eof st).2 = some s) :
    s.elapsed_since_first_us
      = num_microseconds (dur st.this_packet_ts st.first_packet_ts) := by
  by_cases hc : P ≤ dur st.this_packet_ts st.previous_packet_ts ∨
      (eof = true ∧ 1 < st.packet_count)
  · rw [flush_check_pos P eof st hc] at hs
    have h2 := Option.some.inj hs
    rw [← h2]
  · rw [flush_check_neg P eof st hc] at hs
    simp at hs

lemma run_aux_cons_none (P : ℤ) (st st' : AggState) (p : Packet) (ps : List Packet)
    (h : record_step P st p = (st', none)) :
    run_aux P st (p :: ps) = run_aux P st' ps := by
  rw [run_aux_cons, h]
  rfl

lemma run_aux_cons_some (P : ℤ) (st st' : AggState) (s : RateSample) (p : Packet)
    (ps : List Packet) (h : record_step P st p = (st', some s)) :
    run_aux P st (p :: ps) = ((run_aux P st' ps).1, s :: (run_aux P st' ps).2) := by
  rw [run_aux_cons, h]
  rfl

lemma chain_head_bound {p : Packet} {ps : List Packet}
    (hchain : List.Chain' (fun a b => toNanos a.ts ≤ toNanos b.ts) (p :: ps)) :
    ∀ r, ps.head? = some r → toNanos p.ts ≤ toNanos r.ts := by
  intro r hr
  cases ps with
  | nil => simp at hr
  | cons r0 ps0 =>
    have hrr : r0 = r := by simpa using hr
    subst hrr
    exact (List.chain'_cons.mp hchain).1

/-- The loop invariant of the aggregation state: the three running
timestamps are valid and ordered first ≤ previous ≤ this. -/
def Inv (st : AggState) : Prop :=
  ValidTs st.first_packet_ts ∧ ValidTs st.previous_packet_ts ∧
  ValidTs st.this_packet_ts ∧
  toNanos st.first_packet_ts ≤ toNanos st.previous_packet_ts ∧
  toNanos st.previous_packet_ts ≤ toNanos st.this_packet_ts

/-- Master induction for the packet loop on sorted, valid streams: the
invariant is preserved, the running timestamps only move forward, the
first-packet timestamp is frozen once the flush timestamp left the epoch,
and the emitted samples are sorted with their elapsed-since-first values
bracketed by the entry and exit states. -/
lemma run_aux_master (P : ℤ) (hP : 0 < P) :
    ∀ (ps : List Packet) (st : AggState),
      Inv st →
      (∀ p ∈ ps, ValidTs p.ts) →
      List.Chain' (fun a b => toNanos a.ts ≤ toNanos b.ts) ps →
      (∀ p, ps.head? = some p → toNanos st.this_packet_ts ≤ toNanos p.ts) →
      Inv (run_aux P st ps).1 ∧
      toNanos st.this_packet_ts ≤ toNanos (run_aux P st ps).1.this_packet_ts ∧
      toNanos st.previous_packet_ts
        ≤ toNanos (run_aux P st ps).1.previous_packet_ts ∧
      (0 < toNanos st.previous_packet_ts →
        (run_aux P st ps).1.first_packet_ts = st.first_packet_ts ∧
        0 < toNanos (run_aux P st ps).1.previous_packet_ts) ∧
      List.Pairwise (· ≤ ·)
        ((run_aux P st ps).2.map RateSample.elapsed_since_first_us) ∧
      (∀ s ∈ (run_aux P st ps).2, s.elapsed_since_first_us ≤
        num_microseconds (dur (run_aux P st ps).1.this_packet_ts
          (run_aux P st ps).1.first_packet_ts)) ∧
      (0 < toNanos st.previous_packet_ts →
        ∀ s ∈ (run_aux P st ps).2,
          num_microseconds (dur st.this_packet_ts st.first_packet_ts)
            ≤ s.elapsed_since_first_us) := by
  intro ps
  induction ps with
  | nil =>
    intro st hInv hval hchain hhead
    rw [run_aux_nil]
    refine ⟨hInv, le_refl _, le_refl _, fun h => ⟨rfl, h⟩, List.Pairwise.nil, ?_, ?_⟩
    · intro s hs
      simp at hs
    · intro _ s hs
      simp at hs
  | cons p ps ih =>
    intro st hInv hval hchain hhead
    obtain ⟨hVf, hVp, hVt, hfp, hpt⟩ := hInv
    have hvp : ValidTs p.ts := hval p (List.mem_cons_self _ _)
    have hval' : ∀ r ∈ ps, ValidTs r.ts := fun r hr => hval r (List.mem_cons_of_mem _ hr)
    have hchain' : List.Chain' (fun a b => toNanos a.ts ≤ toNanos b.ts) ps := hchain.tail
    have hthisle : toNanos st.this_packet_ts ≤ toNanos p.ts := hhead p rfl
    have hprevle : toNanos st.previous_packet_ts ≤ toNanos p.ts := le_trans hpt hthisle
    have hfirstle : toNanos st.first_packet_ts ≤ toNanos p.ts := le_trans hfp hprevle
    have hnext : ∀ r, ps.head? = some r → toNanos p.ts ≤ toNanos r.ts :=
      chain_head_bound hchain
    by_cases hinit : st.previous_packet_ts = epoch_ts
    · -- first-packet (re-)initialisation; the flush cannot fire
      have hacc := accumulate_eq_pos st p hinit
      have hz : dur p.ts p.ts = 0 := sub_self _
      have hcondE : ¬ (P ≤ dur p.ts p.ts ∨
          ((false = true) ∧ 1 < (st.packet_count + 1) % U32)) := by
        rw [hz]
        rintro (hle | ⟨hf, -⟩)
        · omega
        · simp at hf
      have hstep : record_step P st p
          = ((⟨p.ts, p.ts, p.ts, (st.packet_count + 1) % U32,
              (st.byte_count_wire + p.origlen % U32) % U32,
              (st.byte_count_capture + p.caplen % U32) % U32⟩ : AggState), none) := by
        show flush_check P false (accumulate st p) = _
        rw [hacc]
        exact flush_check_neg P false _ hcondE
      rw [run_aux_cons_none P st _ p ps hstep]
      have hInvA : Inv (⟨p.ts, p.ts, p.ts, (st.packet_count + 1) % U32,
          (st.byte_count_wire + p.origlen % U32) % U32,
          (st.byte_count_capture + p.caplen % U32) % U32⟩ : AggState) :=
        ⟨hvp, hvp, hvp, le_refl _, le_refl _⟩
      obtain ⟨rInv, rthis, rprev, rfrozen, rsorted, rupper, rlower⟩ :=
        ih _ hInvA hval' hchain' (fun r hr => hnext r hr)
      refine ⟨rInv, le_trans hthisle rthis, le_trans hprevle rprev, ?_, rsorted, rupper, ?_⟩
      · intro hpos
        rw [hinit, toNanos_epoch] at hpos
        exact absurd hpos (lt_irrefl 0)
      · intro hpos
        rw [hinit, toNanos_epoch] at hpos
        exact absurd hpos (lt_irrefl 0)
    · -- the flush timestamp has left the epoch
      have hprevpos : 0 < toNanos st.previous_packet_ts := by
        rcases (toNanos_nonneg hVp).lt_or_eq with hlt | heq
        · exact hlt
        · exact absurd (eq_epoch_of_toNanos hVp heq.symm) hinit
      have hacc := accumulate_eq_neg st p hinit
      by_cases hflush : P ≤ dur p.ts st.previous_packet_ts
      · -- the period elapsed: this packet flushes
        have hppos : 0 < toNanos p.ts := by
          have hd : P ≤ toNanos p.ts - toNanos st.previous_packet_ts := hflush
          omega
        have hstep : record_step P st p
            = ((⟨p.ts, st.first_packet_ts, p.ts, 0, 0, 0⟩ : AggState),
               some ⟨num_microseconds (dur p.ts st.first_packet_ts),
                     dur p.ts st.previous_packet_ts,
                     (st.packet_count + 1) % U32,
                     (st.byte_count_wire + p.origlen % U32) % U32,
                     (st.byte_count_capture + p.caplen % U32) % U32⟩) := by
          show flush_check P false (accumulate st p) = _
          rw [hacc]
          exact flush_check_pos P false _ (Or.inl hflush)
        rw [run_aux_cons_some P st _ _ p ps hstep]
        have hInvA : Inv (⟨p.ts, st.first_packet_ts, p.ts, 0, 0, 0⟩ : AggState) :=
          ⟨hVf, hvp, hvp, hfirstle, le_refl _⟩
        obtain ⟨rInv, rthis, rprev, rfrozen, rsorted, rupper, rlower⟩ :=
          ih _ hInvA hval' hchain' (fun r hr => hnext r hr)
        obtain ⟨hFfirst, hFprevpos⟩ := rfrozen hppos
        refine ⟨rInv, le_trans hthisle rthis, le_trans hprevle rprev,
          fun _ => ⟨hFfirst, hFprevpos⟩, ?_, ?_, ?_⟩
        · -- sortedness: the new sample is below everything emitted later
          refine List.pairwise_cons.mpr ⟨?_, rsorted⟩
          intro b hb
          obtain ⟨s, hs, rfl⟩ := List.mem_map.mp hb
          exact rlower hppos s hs
        · -- upper bound against the final state
          intro s hs
          rcases List.mem_cons.mp hs with rfl | hs'
          · apply num_microseconds_mono
            have hdd : dur p.ts st.first_packet_ts
                ≤ dur (run_aux P (⟨p.ts, st.first_packet_ts, p.ts, 0, 0, 0⟩ : AggState)
                  ps).1.this_packet_ts
                  (run_aux P (⟨p.ts, st.first_packet_ts, p.ts, 0, 0, 0⟩ : AggState)
                  ps).1.first_packet_ts := by
              rw [hFfirst]
              exact sub_le_sub_right rthis _
            exact hdd
          · exact rupper s hs'
        · -- lower bound against the entry state
          intro hpos s hs
          rcases List.mem_cons.mp hs with rfl | hs'
          · exact num_microseconds_mono (sub_le_sub_right hthisle _)
          · exact le_trans (num_microseconds_mono (sub_le_sub_right hthisle _))
              (rlower hppos s hs')
      · -- no flush: only this_packet_ts and the counters move
        have hcondE : ¬ (P ≤ dur p.ts st.previous_packet_ts ∨
            ((false = true) ∧ 1 < (st.packet_count + 1) % U32)) := by
          rintro (hle | ⟨hf, -⟩)
          · exact hflush hle
          · simp at hf
        have hstep : record_step P st p
            = ((⟨p.ts, st.first_packet_ts, st.previous_packet_ts,
                (st.packet_count + 1) % U32,
                (st.byte_count_wire + p.origlen % U32) % U32,
                (st.byte_count_capture + p.caplen % U32) % U32⟩ : AggState), none) := by
          show flush_check P false (accumulate st p) = _
          rw [hacc]
          exact flush_check_neg P false _ hcondE
        rw [run_aux_cons_none P st _ p ps hstep]
        have hInvA : Inv (⟨p.ts, st.first_packet_ts, st.previous_packet_ts,
            (st.packet_count + 1) % U32,
            (st.byte_count_wire + p.origlen % U32) % U32,
            (st.byte_count_capture + p.caplen % U32) % U32⟩ : AggState) :=
          ⟨hVf, hVp, hvp, hfp, hprevle⟩
        obtain ⟨rInv, rthis, rprev, rfrozen, rsorted, rupper, rlower⟩ :=
          ih _ hInvA hval' hchain' (fun r hr => hnext r hr)
        obtain ⟨hFfirst, hFprevpos⟩ := rfrozen hprevpos
        refine ⟨rInv, le_trans hthisle rthis, rprev,
          fun _ => ⟨hFfirst, hFprevpos⟩, rsorted, rupper, ?_⟩
        intro hpos s hs
        exact le_trans (num_microseconds_mono (sub_le_sub_right hthisle _))
          (rlower hprevpos s hs)

/-- C8: on any stream of valid, non-decreasing timestamps (positive period),
the emitted RateSamples carry non-decreasing elapsed-since-first-packet
values; the f64 elapsedSinceFirstPacketSeconds written out is a monotone
image of this integer microsecond count. -/
theorem C8_samples_nondecreasing (P : ℤ) (hP : 0 < P) (ps : List Packet)
    (hval : ∀ p ∈ ps, ValidTs p.ts)
    (hsorted : List.Chain' (fun a b => toNanos a.ts ≤ toNanos b.ts) ps) :
    List.Pairwise (· ≤ ·) ((run P ps).map RateSample.elapsed_since_first_us) := by
  have hVe : ValidTs epoch_ts := ⟨le_refl 0, by norm_num [epoch_ts]⟩
  have hInv0 : Inv initState := ⟨hVe, hVe, hVe, le_refl _, le_refl _⟩
  have hhead0 : ∀ p, ps.head? = some p →
      toNanos initState.this_packet_ts ≤ toNanos p.ts := by
    intro p hp
    have hmem : p ∈ ps := List.mem_of_mem_head? (Option.mem_def.mpr hp)
    have h0 : toNanos initState.this_packet_ts = 0 := toNanos_epoch
    rw [h0]
    exact toNanos_nonneg (hval p hmem)
  obtain ⟨-, -, -, -, rsorted, rupper, -⟩ :=
    run_aux_master P hP ps initState hInv0 hval hsorted hhead0
  unfold run
  rw [List.map_append, List.pairwise_append]
  refine ⟨rsorted, ?_, ?_⟩
  · cases heq : (flush_check P true (run_aux P initState ps).1).2 with
    | none => exact List.Pairwise.nil
    | some s => exact List.pairwise_singleton _ _
  · intro a ha b hb
    obtain ⟨sa, hsa, rfl⟩ := List.mem_map.mp ha
    obtain ⟨sb, hsb, rfl⟩ := List.mem_map.mp hb
    cases heq : (flush_check P true (run_aux P initState ps).1).2 with
    | none =>
      rw [heq] at hsb
      simp at hsb
    | some s =>
      rw [heq] at hsb
      have hsbs : sb = s := by simpa using hsb
      subst hsbs
      rw [flush_check_sample_us P true _ sb heq]
      exact rupper sa hsa

/-- Witness for C8 on a concrete two-packet sorted stream. -/
theorem C8_samples_nondecreasing_witness :
    List.Pairwise (· ≤ ·) ((run 1000000000 [⟨10, 10, ⟨1, 0⟩⟩, ⟨10, 10, ⟨3, 0⟩⟩]).map
      RateSample.elapsed_since_first_us) := by
  refine C8_samples_nondecreasing 1000000000 (by norm_num) _ ?_ ?_
  · intro p hp
    rcases List.mem_cons.mp hp with rfl | hp2
    · exact ⟨by norm_num, by norm_num⟩
    · rcases List.mem_cons.mp hp2 with rfl | hp3
      · exact ⟨by norm_num, by norm_num⟩
      · simp at hp3
  · refine List.chain'_cons.mpr ⟨?_, List.chain'_singleton _⟩
    norm_num [toNanos]

/-- Processing a prefix of packets whose timestamps all equal the epoch
leaves the flush timestamp at the epoch sentinel (each such packet
re-triggers the first-packet initialisation). -/
lemma run_aux_epoch_leading (P : ℤ) (hP : 0 < P) :
    ∀ (es : List Packet) (st : AggState),
      (∀ e ∈ es, e.ts = epoch_ts) →
      st.previous_packet_ts = epoch_ts →
      (run_aux P st es).1.previous_packet_ts = epoch_ts := by
  intro es
  induction es with
  | nil =>
    intro st _ h2
    rw [run_aux_nil]
    exact h2
  | cons e es0 ih =>
    intro st hes h2
    have hets : e.ts = epoch_ts := hes e (List.mem_cons_self _ _)
    have hacc := accumulate_eq_pos st e h2
    have hz : dur e.ts e.ts = 0 := sub_self _
    have hcondE : ¬ (P ≤ dur e.ts e.ts ∨
        ((false = true) ∧ 1 < (st.packet_count + 1) % U32)) := by
      rw [hz]
      rintro (hle | ⟨hf, -⟩)
      · omega
      · simp at hf
    have hstep : record_step P st e
        = ((⟨e.ts, e.ts, e.ts, (st.packet_count + 1) % U32,
            (st.byte_count_wire + e.origlen % U32) % U32,
            (st.byte_count_capture + e.caplen % U32) % U32⟩ : AggState), none) := by
      show flush_check P false (accumulate st e) = _
      rw [hacc]
      exact flush_check_neg P false _ hcondE
    rw [run_aux_cons_none P st _ e es0 hstep]
    exact ih _ (fun x hx => hes x (List.mem_cons_of_mem _ hx)) hets

/-- Once the flush timestamp is past the epoch it never returns there, so
the first-packet timestamp stays frozen for the rest of the run. -/
lemma run_aux_first_frozen (P : ℤ) (hP : 0 < P) :
    ∀ (rest : List Packet) (st : AggState),
      0 < toNanos st.previous_packet_ts →
      (run_aux P st rest).1.first_packet_ts = st.first_packet_ts ∧
      0 < toNanos (run_aux P st rest).1.previous_packet_ts := by
  intro rest
  induction rest with
  | nil =>
    intro st hpos
    rw [run_aux_nil]
    exact ⟨rfl, hpos⟩
  | cons p ps ih =>
    intro st hpos
    have hne : st.previous_packet_ts ≠ epoch_ts := ne_epoch_of_pos hpos
    have hacc := accumulate_eq_neg st p hne
    by_cases hflush : P ≤ dur p.ts st.previous_packet_ts
    · have hstep : record_step P st p
          = ((⟨p.ts, st.first_packet_ts, p.ts, 0, 0, 0⟩ : AggState),
             some ⟨num_microseconds (dur p.ts st.first_packet_ts),
                   dur p.ts st.previous_packet_ts,
                   (st.packet_count + 1) % U32,
                   (st.byte_count_wire + p.origlen % U32) % U32,
                   (st.byte_count_capture + p.caplen % U32) % U32⟩) := by
        show flush_check P false (accumulate st p) = _
        rw [hacc]
        exact flush_check_pos P false _ (Or.inl hflush)
      rw [run_aux_cons_some P st _ _ p ps hstep]
      have hppos : 0 < toNanos p.ts := by
        have hd : P ≤ toNanos p.ts - toNanos st.previous_packet_ts := hflush
        omega
      obtain ⟨h1, h2⟩ := ih (⟨p.ts, st.first_packet_ts, p.ts, 0, 0, 0⟩ : AggState) hppos
      exact ⟨h1, h2⟩
    · have hcondE : ¬ (P ≤ dur p.ts st.previous_packet_ts ∨
          ((false = true) ∧ 1 < (st.packet_count + 1) % U32)) := by
        rintro (hle | ⟨hf, -⟩)
        · exact hflush hle
        · simp at hf
      have hstep : record_step P st p
          = ((⟨p.ts, st.first_packet_ts, st.previous_packet_ts,
              (st.packet_count + 1) % U32,
              (st.byte_count_wire + p.origlen % U32) % U32,
              (st.byte_count_capture + p.caplen % U32) % U32⟩ : AggState), none) := by
        show flush_check P false (accumulate st p) = _
        rw [hacc]
        exact flush_check_neg P false _ hcondE
      rw [run_aux_cons_none P st _ p ps hstep]
      obtain ⟨h1, h2⟩ := ih (⟨p.ts, st.first_packet_ts, st.previous_packet_ts,
          (st.packet_count + 1) % U32,
          (st.byte_count_wire + p.origlen % U32) % U32,
          (st.byte_count_capture + p.caplen % U32) % U32⟩ : AggState) hpos
      exact ⟨h1, h2⟩

/-- C9: with a (possibly empty) run of leading packets timestamped exactly
at the Unix epoch, each such packet re-triggers first-packet detection, so
firstPacketTimestamp ends up as the timestamp of the first packet whose
timestamp differs from the epoch — not that of the actual first packet. -/
theorem C9_epoch_leading_first_packet (P : ℤ) (hP : 0 < P) (es rest : List Packet)
    (q : Packet) (hes : ∀ e ∈ es, e.ts = epoch_ts)
    (hq : ValidTs q.ts) (hqne : q.ts ≠ epoch_ts) :
    (final_state P (es ++ q :: rest)).first_packet_ts = q.ts ∧
    (∀ e0 ∈ es, (final_state P (es ++ q :: rest)).first_packet_ts ≠ e0.ts) := by
  have hstE : (run_aux P initState es).1.previous_packet_ts = epoch_ts :=
    run_aux_epoch_leading P hP es initState hes rfl
  have haccq := accumulate_eq_pos (run_aux P initState es).1 q hstE
  have hzq : dur q.ts q.ts = 0 := sub_self _
  have hcondq : ¬ (P ≤ dur q.ts q.ts ∨
      ((false = true) ∧ 1 < ((run_aux P initState es).1.packet_count + 1) % U32)) := by
    rw [hzq]
    rintro (hle | ⟨hf, -⟩)
    · omega
    · simp at hf
  have hstepq : record_step P (run_aux P initState es).1 q
      = ((⟨q.ts, q.ts, q.ts, ((run_aux P initState es).1.packet_count + 1) % U32,
          ((run_aux P initState es).1.byte_count_wire + q.origlen % U32) % U32,
          ((run_aux P initState es).1.byte_count_capture + q.caplen % U32) % U32⟩
            : AggState), none) := by
    show flush_check P false (accumulate (run_aux P initState es).1 q) = _
    rw [haccq]
    exact flush_check_neg P false _ hcondq
  have hqpos : 0 < toNanos q.ts := by
    rcases (toNanos_nonneg hq).lt_or_eq with hlt | heq
    · exact hlt
    · exact absurd (eq_epoch_of_toNanos hq heq.symm) hqne
  obtain ⟨hfrozen, -⟩ := run_aux_first_frozen P hP rest
    (⟨q.ts, q.ts, q.ts, ((run_aux P initState es).1.packet_count + 1) % U32,
      ((run_aux P initState es).1.byte_count_wire + q.origlen % U32) % U32,
      ((run_aux P initState es).1.byte_count_capture + q.caplen % U32) % U32⟩
        : AggState) hqpos
  have hfin1 : (run_aux P initState (es ++ q :: rest)).1
      = (run_aux P (⟨q.ts, q.ts, q.ts,
          ((run_aux P initState es).1.packet_count + 1) % U32,
          ((run_aux P initState es).1.byte_count_wire + q.origlen % U32) % U32,
          ((run_aux P initState es).1.byte_count_capture + q.caplen % U32) % U32⟩
            : AggState) rest).1 := by
    rw [run_aux_append, run_aux_cons_none P _ _ q rest hstepq]
  have hfq : (final_state P (es ++ q :: rest)).first_packet_ts = q.ts := by
    show (flush_check P true (run_aux P initState (es ++ q :: rest)).1).1.first_packet_ts
      = q.ts
    rw [flush_check_first, hfin1]
    exact hfrozen
  refine ⟨hfq, fun e0 he0 => ?_⟩
  rw [hfq, hes e0 he0]
  exact hqne

/-- Witness for C9: one epoch-timestamped leading packet, then a packet at
7 s; the recorded first-packet timestamp is the second packet's. -/
theorem C9_epoch_leading_first_packet_witness :
    (final_state 1000000000 [⟨1, 1, epoch_ts⟩, ⟨2, 2, ⟨7, 0⟩⟩]).first_packet_ts = ⟨7, 0⟩ ∧
    (final_state 1000000000 [⟨1, 1, epoch_ts⟩, ⟨2, 2, ⟨7, 0⟩⟩]).first_packet_ts
      ≠ epoch_ts := by
  have h := C9_epoch_leading_first_packet 1000000000 (by norm_num)
    [⟨1, 1, epoch_ts⟩] [] ⟨2, 2, ⟨7, 0⟩⟩
    (by
      intro e he
      rcases List.mem_cons.mp he with rfl | he2
      · rfl
      · simp at he2)
    ⟨by norm_num, by norm_num⟩
    (by
      intro hb
      norm_num [epoch_ts] at hb)
  exact ⟨h.1, h.2 ⟨1, 1, epoch_ts⟩ (List.mem_cons_self _ _)⟩

end Plotcap
